import Mathlib

/-!
Shallow embedding of the Bubble-Shooter simulation core (src/index.js) and
proofs about its grid model, connectivity engine, trajectory predictor,
landing handling, row-shift protocol and firing logic.

Conventions used throughout:
* JavaScript numbers are modelled as exact rationals (`ℚ`); every routine
  embedded here performs only field arithmetic and comparisons, and `x ** 2`
  is written as multiplication.
* `Math.hypot p q <= r` is embedded as `p * p + q * q <= r * r`; the two are
  equivalent exactly when `0 <= r`, and every call site passes the fixed
  nonnegative radius `cellSize / 2 - 1 + radius - 0.5`.
* Grids are total functions `ℤ → ℤ → Option Color`; the source only reads a
  cell after an explicit bounds check, and the embedding mirrors each check.
* JS `%` agrees with `Int.emod` on the nonnegative rows at every call site.
* The stack-driven searches (`floodFill`, `removeFloating`) are written with
  an explicit fuel counter; `floodFuel` strictly exceeds the loops'
  decreasing measure (proved below where termination matters), so the
  embedded loops run to completion exactly like the source's `while` loops.
-/

set_option maxRecDepth 8000

namespace BS

/-- A palette colour; the code only ever compares colours for equality. -/
abbrev Color := String

/-- The fixed palette (src/index.js:15). -/
def colors : List Color :=
  ["#ef4444", "#f97316", "#f59e0b", "#10b981", "#3b82f6", "#8b5cf6"]

/-- Grid height (src/index.js:11). -/
def rows : ℕ := 10

/-- Grid width (src/index.js:12). -/
def cols : ℕ := 8

/-- Bubble diameter (src/index.js:14). -/
def cellSize : ℚ := 18

/-- A (row, column) coordinate; intermediate values may leave the grid. -/
abbrev Pos := ℤ × ℤ

/-- The occupancy table: `null` or `{ color }` per cell (src/index.js:17). -/
def Grid := ℤ → ℤ → Option Color

/-- The bounds check `0 <= r < rows && 0 <= c < cols` the code performs
before reading a cell. -/
def inBounds (p : Pos) : Prop :=
  0 ≤ p.1 ∧ p.1 < (rows : ℤ) ∧ 0 ≤ p.2 ∧ p.2 < (cols : ℤ)

instance (p : Pos) : Decidable (inBounds p) := by
  unfold inBounds; infer_instance

/-- gridToPos (src/index.js:55-59): staggered corner position of a cell. -/
def gridToPos (row col : ℤ) : ℚ × ℚ :=
  ((col : ℚ) * cellSize + ((row % 2 : ℤ) : ℚ) * (cellSize / 2),
   (row : ℚ) * (cellSize - 3))

/-- All cells in the order the source's nested `for` loops visit them. -/
def cellsRowMajor : List Pos :=
  (List.range rows).flatMap fun r : ℕ =>
    (List.range cols).map fun c : ℕ => ((r : ℤ), (c : ℤ))

/-- One step of posToGrid's linear minimum-distance scan; `none` models the
initial `Infinity` best distance (src/index.js:62). -/
def bestStep (x y : ℚ) (best : Pos × Option ℚ) (rc : Pos) : Pos × Option ℚ :=
  let p := gridToPos rc.1 rc.2
  let cx := p.1 + cellSize / 2
  let cy := p.2 + cellSize / 2
  let d := (cx - x) * (cx - x) + (cy - y) * (cy - y)
  match best.2 with
  | none => (rc, some d)
  | some bd => if d < bd then (rc, some d) else best

/-- posToGrid (src/index.js:61-73): nearest-centre lookup by a linear scan
over all cells, keeping the strictly closest centre seen so far. -/
def posToGrid (x y : ℚ) : Pos :=
  (cellsRowMajor.foldl (bestStep x y) (((0 : ℤ), (0 : ℤ)), none)).1

/-- C4 counterexample: `posToGrid` applied to the corner position that
`gridToPos` returns for cell (0, 1) yields (0, 0), not (0, 1): the corner of
(0, 1) is equidistant from the centres of (0, 0) and (0, 1) and the strict
comparison keeps the scan-earlier cell. -/
theorem C4_gridToPos_posToGrid_corner_counterexample :
    posToGrid (gridToPos 0 1).1 (gridToPos 0 1).2 = ((0 : ℤ), (0 : ℤ)) ∧
    posToGrid (gridToPos 0 1).1 (gridToPos 0 1).2 ≠ ((0 : ℤ), (1 : ℤ)) :=
  of_decide_eq_true (by with_unfolding_all rfl)

set_option maxHeartbeats 1600000 in
/-- C4 (amended): for every valid cell, `posToGrid` applied to the centre of
the continuous position that `gridToPos` produces for the cell (corner plus
half a cell, the point the code itself uses as the cell's position
everywhere) returns exactly that cell. -/
theorem C4_gridToPos_posToGrid_roundtrip :
    ∀ r, r < rows → ∀ c, c < cols →
      posToGrid ((gridToPos r c).1 + cellSize / 2) ((gridToPos r c).2 + cellSize / 2)
        = ((r : ℤ), (c : ℤ)) :=
  of_decide_eq_true (by with_unfolding_all rfl)

/-- C4 witness: the round trip at the concrete cell (3, 4). -/
theorem C4_gridToPos_posToGrid_roundtrip_witness :
    posToGrid ((gridToPos 3 4).1 + cellSize / 2) ((gridToPos 3 4).2 + cellSize / 2)
      = ((3 : ℤ), (4 : ℤ)) :=
  C4_gridToPos_posToGrid_roundtrip 3 (by norm_num [rows]) 4 (by norm_num [cols])

/-! ### Connectivity engine: hex adjacency and colour-match flood fill -/

/-- The six neighbour offsets used by both searches (src/index.js:248-255,
272-279): four orthogonal plus two parity-dependent diagonals. The row is
nonnegative whenever the offsets are computed (the cell just passed the
bounds check), where `Int.emod` agrees with JS `%`. -/
def neighborOffsets (r : ℤ) : List Pos :=
  [(-1, 0), (1, 0), (0, -1), (0, 1),
   (-1, if r % 2 = 0 then -1 else 1), (1, if r % 2 = 0 then -1 else 1)]

/-- The six hex neighbours of a cell, in the order the code pushes them. -/
def neighbors (p : Pos) : List Pos :=
  (neighborOffsets p.1).map fun d => (p.1 + d.1, p.2 + d.2)

/-- Hex adjacency as the code's offset table defines it. -/
def adjacent (a b : Pos) : Prop := b ∈ neighbors a

instance (a b : Pos) : Decidable (adjacent a b) := by
  unfold adjacent; infer_instance

/-- The in-bounds cells, as a finite set (used for the loop measure). -/
def validCells : Finset Pos :=
  Finset.Icc (0 : ℤ) ((rows : ℤ) - 1) ×ˢ Finset.Icc (0 : ℤ) ((cols : ℤ) - 1)

lemma mem_validCells {p : Pos} : p ∈ validCells ↔ inBounds p := by
  simp only [validCells, Finset.mem_product, Finset.mem_Icc, inBounds, rows, cols]
  omega

/-- Fuel for the two stack-driven searches. Each iteration pops one entry
and strictly decreases `(validCells \ visited).card * 7 + stack.length`,
which starts at most `80 * 7 + 8`, so 1000 iterations always suffice; the
fuel-out branches below are never reached from the entry points. -/
def floodFuel : ℕ := 1000

/-- The `while (stack.length)` loop of floodFill (src/index.js:240-257):
pop, skip if visited or out of bounds or not the seed colour, otherwise mark
visited and push the six neighbours (pushing onto the JS array end = the
list head, hence the `reverse`). -/
def floodLoop (g : Grid) (color : Color) : ℕ → Finset Pos → List Pos → Finset Pos
  | _ + 1, visited, [] => visited
  | 0, visited, _ => visited
  | fuel + 1, visited, p :: rest =>
    if p ∈ visited then floodLoop g color fuel visited rest
    else if inBounds p then
      match g p.1 p.2 with
      | some col =>
        if col = color then
          floodLoop g color fuel (insert p visited) ((neighbors p).reverse ++ rest)
        else floodLoop g color fuel visited rest
      | none => floodLoop g color fuel visited rest
    else floodLoop g color fuel visited rest

/-- floodFill (src/index.js:237-259): colour-match DFS from a seed cell.
The JS function returns the visited keys as an array; the result set is
modelled directly. -/
def floodFill (g : Grid) (sr sc : ℤ) (color : Color) : Finset Pos :=
  floodLoop g color floodFuel ∅ [(sr, sc)]

/-- `b` is reachable from `a` by hex-adjacency steps that stay inside `S`. -/
def ReachIn (S : Finset Pos) (a b : Pos) : Prop :=
  Relation.ReflTransGen (fun u v => adjacent u v ∧ v ∈ S) a b

lemma ReachIn.mono {S T : Finset Pos} (h : S ⊆ T) {a b : Pos} :
    ReachIn S a b → ReachIn T a b :=
  Relation.ReflTransGen.mono fun _ _ hv => ⟨hv.1, h hv.2⟩

/-- Loop invariant of `floodLoop`: visited cells are in-bounds seed-coloured
cells reachable from the seed inside the visited set, and every stacked cell
is the seed or adjacent to a visited cell; both are preserved to the final
result. -/
lemma floodLoop_invariant (g : Grid) (color : Color) (seed : Pos) :
    ∀ fuel (v : Finset Pos) (s : List Pos),
      (∀ q ∈ v, inBounds q ∧ g q.1 q.2 = some color) →
      (∀ q ∈ v, ReachIn v seed q) →
      (∀ q ∈ s, q = seed ∨ ∃ t ∈ v, adjacent t q) →
      (∀ p ∈ floodLoop g color fuel v s, inBounds p ∧ g p.1 p.2 = some color) ∧
      (∀ p ∈ floodLoop g color fuel v s, ReachIn (floodLoop g color fuel v s) seed p) := by
  intro fuel
  induction fuel with
  | zero =>
    intro v s h1 h2 _
    constructor <;> intro p hp <;> rw [show floodLoop g color 0 v s = v by cases s <;> rfl] at *
    · exact h1 p hp
    · exact h2 p hp
  | succ n ih =>
    intro v s h1 h2 h3
    cases s with
    | nil => exact ⟨h1, h2⟩
    | cons p rest =>
      by_cases hv : p ∈ v
      · rw [show floodLoop g color (n + 1) v (p :: rest) = floodLoop g color n v rest by
          simp [floodLoop, hv]]
        exact ih v rest h1 h2 fun q hq => h3 q (List.mem_cons_of_mem _ hq)
      · by_cases hb : inBounds p
        · cases hg : g p.1 p.2 with
          | none =>
            rw [show floodLoop g color (n + 1) v (p :: rest) = floodLoop g color n v rest by
              simp [floodLoop, hv, hb, hg]]
            exact ih v rest h1 h2 fun q hq => h3 q (List.mem_cons_of_mem _ hq)
          | some col =>
            by_cases hcol : col = color
            · rw [show floodLoop g color (n + 1) v (p :: rest)
                  = floodLoop g color n (insert p v) ((neighbors p).reverse ++ rest) by
                simp [floodLoop, hv, hb, hg, hcol]]
              apply ih (insert p v) ((neighbors p).reverse ++ rest)
              · intro q hq
                rcases Finset.mem_insert.1 hq with rfl | hq
                · exact ⟨hb, hcol ▸ hg⟩
                · exact h1 q hq
              · intro q hq
                rcases Finset.mem_insert.1 hq with rfl | hq
                · rcases h3 q (List.mem_cons_self _ _) with rfl | ⟨t, ht, hadj⟩
                  · exact Relation.ReflTransGen.refl
                  · exact Relation.ReflTransGen.tail
                      (ReachIn.mono (Finset.subset_insert _ _) (h2 t ht))
                      ⟨hadj, Finset.mem_insert_self _ _⟩
                · exact ReachIn.mono (Finset.subset_insert _ _) (h2 q hq)
              · intro q hq
                rcases List.mem_append.1 hq with hq | hq
                · exact Or.inr ⟨p, Finset.mem_insert_self _ _, List.mem_reverse.1 hq⟩
                · rcases h3 q (List.mem_cons_of_mem _ hq) with rfl | ⟨t, ht, hadj⟩
                  · exact Or.inl rfl
                  · exact Or.inr ⟨t, Finset.mem_insert_of_mem ht, hadj⟩
            · rw [show floodLoop g color (n + 1) v (p :: rest) = floodLoop g color n v rest by
                simp [floodLoop, hv, hb, hg, hcol]]
              exact ih v rest h1 h2 fun q hq => h3 q (List.mem_cons_of_mem _ hq)
        · rw [show floodLoop g color (n + 1) v (p :: rest) = floodLoop g color n v rest by
            simp [floodLoop, hv, hb]]
          exact ih v rest h1 h2 fun q hq => h3 q (List.mem_cons_of_mem _ hq)

/-- C1: for every grid and seed, `floodFill` returns only in-bounds occupied
cells of the seed colour, every returned cell is reachable from the seed via
hex adjacency through cells of the returned set, and running it again on the
unchanged grid from the same seed returns the same set. -/
theorem C1_floodFill_sound_reachable_idempotent (g : Grid) (sr sc : ℤ) (color : Color) :
    (∀ p ∈ floodFill g sr sc color, inBounds p ∧ g p.1 p.2 = some color) ∧
    (∀ p ∈ floodFill g sr sc color, ReachIn (floodFill g sr sc color) (sr, sc) p) ∧
    floodFill g sr sc color = floodFill g sr sc color := by
  have h := floodLoop_invariant g color (sr, sc) floodFuel ∅ [(sr, sc)]
    (by intro q hq; simp at hq) (by intro q hq; simp at hq)
    (by intro q hq; simp at hq; exact Or.inl hq)
  exact ⟨h.1, h.2, rfl⟩

/-- A one-cell grid used to witness C1 concretely. -/
def C1grid : Grid := fun r c => if r = 0 ∧ c = 0 then some "#ef4444" else none

/-- C1 witness: on the concrete one-cell grid, the seed cell is in the
result, is an occupied in-bounds cell of the seed colour, and is reachable
from the seed inside the result. -/
theorem C1_floodFill_witness :
    ((0, 0) ∈ floodFill C1grid 0 0 "#ef4444") ∧
    (inBounds ((0 : ℤ), (0 : ℤ)) ∧ C1grid 0 0 = some "#ef4444") ∧
    ReachIn (floodFill C1grid 0 0 "#ef4444") (0, 0) (0, 0) :=
  have hm : ((0 : ℤ), (0 : ℤ)) ∈ floodFill C1grid 0 0 "#ef4444" :=
    of_decide_eq_true (by with_unfolding_all rfl)
  ⟨hm, (C1_floodFill_sound_reachable_idempotent C1grid 0 0 "#ef4444").1 _ hm,
    (C1_floodFill_sound_reachable_idempotent C1grid 0 0 "#ef4444").2.1 _ hm⟩

/-! ### Ceiling reachability and floating-cell removal -/

/-- The neighbours `removeFloating` pushes from a cell: in-bounds and
occupied, any colour (src/index.js:280-286), in push order. -/
def pushable (g : Grid) (p : Pos) : List Pos :=
  (neighbors p).filter fun q => decide (inBounds q) && (g q.1 q.2).isSome

/-- The `while (stack.length)` loop of removeFloating (src/index.js:267-287):
pop, skip if already reachable, otherwise mark reachable and push every
in-bounds occupied neighbour. -/
def reachLoop (g : Grid) : ℕ → Finset Pos → List Pos → Finset Pos
  | _ + 1, visited, [] => visited
  | 0, visited, _ => visited
  | fuel + 1, visited, p :: rest =>
    if p ∈ visited then reachLoop g fuel visited rest
    else reachLoop g fuel (insert p visited) ((pushable g p).reverse ++ rest)

/-- The initial stack: every occupied cell of row 0, pushed in column order
(src/index.js:264-266); the JS array end is the list head. -/
def ceilingStack (g : Grid) : List Pos :=
  ((List.range cols).filterMap fun c : ℕ =>
    if (g 0 (c : ℤ)).isSome then some ((0 : ℤ), (c : ℤ)) else none).reverse

/-- The set of cells reachable from the ceiling through occupied cells. -/
def ceilReach (g : Grid) : Finset Pos := reachLoop g floodFuel ∅ (ceilingStack g)

/-- removeFloating (src/index.js:261-297): clear every occupied cell not in
the ceiling-reachable set, awarding 5 points per cleared cell; the result is
the new grid together with the points awarded. -/
def removeFloating (g : Grid) : Grid × ℕ :=
  let reach := ceilReach g
  (fun r c => if inBounds (r, c) ∧ (g r c).isSome ∧ (r, c) ∉ reach then none else g r c,
   5 * (validCells.filter fun p => (g p.1 p.2).isSome ∧ p ∉ reach).card)

/-- The strictly decreasing measure of both stack-driven searches. -/
def searchMeasure (v : Finset Pos) (s : List Pos) : ℕ :=
  (validCells \ v).card * 7 + s.length

lemma measure_insert {v : Finset Pos} {q : Pos} (hq : q ∈ validCells) (hv : q ∉ v) :
    (validCells \ insert q v).card + 1 = (validCells \ v).card := by
  have he : validCells \ insert q v = (validCells \ v).erase q := by
    ext x
    simp only [Finset.mem_sdiff, Finset.mem_erase, Finset.mem_insert]
    tauto
  have hmem : q ∈ validCells \ v := Finset.mem_sdiff.2 ⟨hq, hv⟩
  rw [he, Finset.card_erase_of_mem hmem]
  have := Finset.card_pos.2 ⟨q, hmem⟩
  omega

lemma pushable_length_le (g : Grid) (p : Pos) : (pushable g p).length ≤ 6 :=
  le_trans (List.length_filter_le _ _) (by simp [neighbors, neighborOffsets])

lemma pushable_valid (g : Grid) {p q : Pos} (h : q ∈ pushable g p) : q ∈ validCells := by
  have := List.of_mem_filter h
  simp only [Bool.and_eq_true, decide_eq_true_eq] at this
  exact mem_validCells.2 this.1

lemma pushable_occupied (g : Grid) {p q : Pos} (h : q ∈ pushable g p) :
    (g q.1 q.2).isSome = true := by
  have := List.of_mem_filter h
  simp only [Bool.and_eq_true, decide_eq_true_eq] at this
  exact this.2

lemma pushable_adjacent (g : Grid) {p q : Pos} (h : q ∈ pushable g p) : adjacent p q :=
  List.mem_of_mem_filter h

/-- Given enough fuel, everything on the stack (and everything already
visited) ends up in the search's result. -/
lemma reachLoop_absorbs (g : Grid) :
    ∀ fuel (v : Finset Pos) (s : List Pos),
      searchMeasure v s < fuel → (∀ q ∈ s, q ∈ validCells) →
      ∀ p, p ∈ s ∨ p ∈ v → p ∈ reachLoop g fuel v s := by
  intro fuel
  induction fuel with
  | zero => intro v s hm; omega
  | succ n ih =>
    intro v s hm hs p hp
    cases s with
    | nil =>
      rcases hp with hp | hp
      · exact absurd hp (List.not_mem_nil p)
      · exact hp
    | cons q rest =>
      by_cases hv : q ∈ v
      · rw [show reachLoop g (n + 1) v (q :: rest) = reachLoop g n v rest by
          simp [reachLoop, hv]]
        have hm' : searchMeasure v rest < n := by
          simp only [searchMeasure, List.length_cons] at hm ⊢; omega
        rcases hp with hp | hp
        · rcases List.mem_cons.1 hp with rfl | hp
          · exact ih v rest hm' (fun x hx => hs x (List.mem_cons_of_mem _ hx)) p (Or.inr hv)
          · exact ih v rest hm' (fun x hx => hs x (List.mem_cons_of_mem _ hx)) p (Or.inl hp)
        · exact ih v rest hm' (fun x hx => hs x (List.mem_cons_of_mem _ hx)) p (Or.inr hp)
      · rw [show reachLoop g (n + 1) v (q :: rest)
            = reachLoop g n (insert q v) ((pushable g q).reverse ++ rest) by
          simp [reachLoop, hv]]
        have hmq := measure_insert (hs q (List.mem_cons_self _ _)) hv
        have hm' : searchMeasure (insert q v) ((pushable g q).reverse ++ rest) < n := by
          have hlen := pushable_length_le g q
          simp only [searchMeasure, List.length_cons, List.length_append,
            List.length_reverse] at hm ⊢
          omega
        have hs' : ∀ x ∈ (pushable g q).reverse ++ rest, x ∈ validCells := by
          intro x hx
          rcases List.mem_append.1 hx with hx | hx
          · exact pushable_valid g (List.mem_reverse.1 hx)
          · exact hs x (List.mem_cons_of_mem _ hx)
        rcases hp with hp | hp
        · rcases List.mem_cons.1 hp with rfl | hp
          · exact ih _ _ hm' hs' p (Or.inr (Finset.mem_insert_self _ _))
          · exact ih _ _ hm' hs' p (Or.inl (List.mem_append.2 (Or.inr hp)))
        · exact ih _ _ hm' hs' p (Or.inr (Finset.mem_insert_of_mem hp))

/-- Given enough fuel, the search's result is closed under occupied
in-bounds neighbours. -/
lemma reachLoop_closed (g : Grid) :
    ∀ fuel (v : Finset Pos) (s : List Pos),
      searchMeasure v s < fuel → (∀ q ∈ s, q ∈ validCells) →
      (∀ q ∈ v, ∀ w ∈ pushable g q, w ∈ v ∨ w ∈ s) →
      ∀ q ∈ reachLoop g fuel v s, ∀ w ∈ pushable g q, w ∈ reachLoop g fuel v s := by
  intro fuel
  induction fuel with
  | zero => intro v s hm; omega
  | succ n ih =>
    intro v s hm hs hc q hq w hw
    cases s with
    | nil =>
      have hres : reachLoop g (n + 1) v [] = v := rfl
      rw [hres] at hq ⊢
      rcases hc q hq w hw with h | h
      · exact h
      · exact absurd h (List.not_mem_nil w)
    | cons a rest =>
      by_cases hv : a ∈ v
      · rw [show reachLoop g (n + 1) v (a :: rest) = reachLoop g n v rest by
          simp [reachLoop, hv]] at hq ⊢
        have hm' : searchMeasure v rest < n := by
          simp only [searchMeasure, List.length_cons] at hm ⊢; omega
        refine ih v rest hm' (fun x hx => hs x (List.mem_cons_of_mem _ hx)) ?_ q hq w hw
        intro x hx y hy
        rcases hc x hx y hy with h | h
        · exact Or.inl h
        · rcases List.mem_cons.1 h with rfl | h
          · exact Or.inl hv
          · exact Or.inr h
      · rw [show reachLoop g (n + 1) v (a :: rest)
            = reachLoop g n (insert a v) ((pushable g a).reverse ++ rest) by
          simp [reachLoop, hv]] at hq ⊢
        have hmq := measure_insert (hs a (List.mem_cons_self _ _)) hv
        have hm' : searchMeasure (insert a v) ((pushable g a).reverse ++ rest) < n := by
          have hlen := pushable_length_le g a
          simp only [searchMeasure, List.length_cons, List.length_append,
            List.length_reverse] at hm ⊢
          omega
        have hs' : ∀ x ∈ (pushable g a).reverse ++ rest, x ∈ validCells := by
          intro x hx
          rcases List.mem_append.1 hx with hx | hx
          · exact pushable_valid g (List.mem_reverse.1 hx)
          · exact hs x (List.mem_cons_of_mem _ hx)
        refine ih _ _ hm' hs' ?_ q hq w hw
        intro x hx y hy
        rcases Finset.mem_insert.1 hx with rfl | hx
        · exact Or.inr (List.mem_append.2 (Or.inl (List.mem_reverse.2 hy)))
        · rcases hc x hx y hy with h | h
          · exact Or.inl (Finset.mem_insert_of_mem h)
          · rcases List.mem_cons.1 h with rfl | h
            · exact Or.inl (Finset.mem_insert_self _ _)
            · exact Or.inr (List.mem_append.2 (Or.inr h))

lemma validCells_card : validCells.card = 80 := by decide

lemma ceilingStack_measure (g : Grid) : searchMeasure ∅ (ceilingStack g) < floodFuel := by
  have hlen : (ceilingStack g).length ≤ cols := by
    have := List.length_filterMap_le
      (fun c : ℕ => if (g 0 (c : ℤ)).isSome then some ((0 : ℤ), (c : ℤ)) else none)
      (List.range cols)
    simpa [ceilingStack] using this
  have : (validCells \ ∅).card = 80 := by rw [Finset.sdiff_empty, validCells_card]
  simp only [searchMeasure, this, floodFuel]
  simp [cols] at hlen
  omega

lemma ceilingStack_valid (g : Grid) : ∀ q ∈ ceilingStack g, q ∈ validCells := by
  intro q hq
  obtain ⟨c, hc, hq⟩ := List.mem_filterMap.1 (List.mem_reverse.1 hq)
  rw [List.mem_range] at hc
  by_cases ho : (g 0 (c : ℤ)).isSome
  · rw [if_pos ho] at hq
    obtain rfl := Option.some_inj.1 hq
    exact mem_validCells.2 ⟨le_refl _, by norm_num [rows], Int.ofNat_nonneg c,
      Int.ofNat_lt.2 hc⟩
  · rw [if_neg ho] at hq
    exact absurd hq (by simp)

/-- `b` is connected to `a` through in-bounds occupied cells, regardless of
colour ("any hex-adjacency path to row 0"). -/
def OccReach (g : Grid) (a b : Pos) : Prop :=
  Relation.ReflTransGen (fun u v => adjacent u v ∧ inBounds v ∧ (g v.1 v.2).isSome) a b

/-- C2: the ceiling-reachability set contains every occupied row-0 cell and
every occupied cell with an occupied hex path to an occupied row-0 cell, and
`removeFloating` clears exactly the occupied cells outside that set, leaving
every reachable cell untouched. -/
theorem C2_removeFloating_reachable_exact (g : Grid) :
    (∀ c : ℤ, 0 ≤ c → c < (cols : ℤ) → (g 0 c).isSome → ((0 : ℤ), c) ∈ ceilReach g) ∧
    (∀ c : ℤ, 0 ≤ c → c < (cols : ℤ) → (g 0 c).isSome →
      ∀ p, OccReach g (0, c) p → p ∈ ceilReach g) ∧
    (∀ p : Pos, inBounds p → (g p.1 p.2).isSome →
      (((removeFloating g).1 p.1 p.2 = none) ↔ p ∉ ceilReach g)) ∧
    (∀ p : Pos, inBounds p → p ∈ ceilReach g →
      (removeFloating g).1 p.1 p.2 = g p.1 p.2) := by
  have hrow0 : ∀ c : ℤ, 0 ≤ c → c < (cols : ℤ) → (g 0 c).isSome →
      ((0 : ℤ), c) ∈ ceilReach g := by
    intro c h0 hc ho
    have hmem : ((0 : ℤ), c) ∈ ceilingStack g := by
      obtain ⟨n, rfl⟩ := Int.eq_ofNat_of_zero_le h0
      refine List.mem_reverse.2 (List.mem_filterMap.2 ⟨n, List.mem_range.2 ?_, ?_⟩)
      · exact_mod_cast hc
      · rw [if_pos ho]
    exact reachLoop_absorbs g floodFuel ∅ (ceilingStack g) (ceilingStack_measure g)
      (ceilingStack_valid g) _ (Or.inl hmem)
  have hclosed := reachLoop_closed g floodFuel ∅ (ceilingStack g) (ceilingStack_measure g)
    (ceilingStack_valid g) (by intro q hq; simp at hq)
  refine ⟨hrow0, ?_, ?_, ?_⟩
  · intro c h0 hc ho p hpath
    induction hpath with
    | refl => exact hrow0 c h0 hc ho
    | tail _ hstep ih =>
      rename_i u w _
      refine hclosed u ih w ?_
      simp only [pushable, List.mem_filter, Bool.and_eq_true, decide_eq_true_eq]
      exact ⟨hstep.1, hstep.2.1, hstep.2.2⟩
  · rintro ⟨p1, p2⟩ hb ho
    simp only [removeFloating]
    constructor
    · intro hnone
      intro hmem
      rw [if_neg (by simp [hmem])] at hnone
      rw [hnone] at ho
      simp at ho
    · intro hmem
      rw [if_pos ⟨hb, ho, hmem⟩]
  · rintro ⟨p1, p2⟩ _ hmem
    simp only [removeFloating]
    rw [if_neg (by simp [hmem])]

/-- A grid with one occupied ceiling cell, used to witness C2 concretely. -/
def C2grid : Grid := fun r c => if r = 0 ∧ c = 0 then some "#3b82f6" else none

/-- C2 witness: on the concrete grid, the occupied row-0 cell (0, 0) is in
the ceiling-reachable set and removeFloating leaves it untouched. -/
theorem C2_removeFloating_witness :
    (C2grid 0 0).isSome = true ∧ ((0 : ℤ), (0 : ℤ)) ∈ ceilReach C2grid ∧
    (removeFloating C2grid).1 0 0 = C2grid 0 0 :=
  have ho : (C2grid 0 0).isSome = true := rfl
  have hmem : ((0 : ℤ), (0 : ℤ)) ∈ ceilReach C2grid :=
    (C2_removeFloating_reachable_exact C2grid).1 0 (le_refl 0) (by norm_num [cols]) ho
  ⟨ho, hmem, (C2_removeFloating_reachable_exact C2grid).2.2.2 (0, 0)
    (by norm_num [inBounds, rows, cols]) hmem⟩

/-! ### Landing: snap, match, pop, floating removal -/

/-- The in-flight projectile fields that landing reads (src/index.js:206):
position and colour. -/
structure Proj where
  x : ℚ
  y : ℚ
  color : Color

/-- The session state `stopProjectileAndSnap` touches: grid, score and the
live-projectile state. -/
structure SnapState where
  grid : Grid
  score : ℕ
  projectile : Option Proj
  moving : Bool

/-- `gridRef.current[row][col] = { color }` (src/index.js:225). -/
def updateGrid (g : Grid) (p : Pos) (v : Option Color) : Grid :=
  fun r c => if r = p.1 ∧ c = p.2 then v else g r c

/-- `matched.forEach(([r, co]) => (gridRef.current[r][co] = null))`
(src/index.js:228). -/
def clearCells (g : Grid) (m : Finset Pos) : Grid :=
  fun r c => if (r, c) ∈ m then none else g r c

/-- stopProjectileAndSnap (src/index.js:214-235): snap to the nearest cell;
place the shot if that cell is empty, then pop a ≥3 cluster at 10 points per
cell and run floating removal at 5 points per cell; in every branch the
live-projectile state is cleared. -/
def stopProjectileAndSnap (s : SnapState) : SnapState :=
  match s.projectile with
  | none => s
  | some p =>
    let rc := posToGrid p.x p.y
    if rc.1 < 0 then { s with projectile := none, moving := false }
    else if s.grid rc.1 rc.2 = none then
      let g1 := updateGrid s.grid rc (some p.color)
      let matched := floodFill g1 rc.1 rc.2 p.color
      if 3 ≤ matched.card then
        let g2 := clearCells g1 matched
        { grid := (removeFloating g2).1,
          score := s.score + matched.card * 10 + (removeFloating g2).2,
          projectile := none, moving := false }
      else { s with grid := g1, projectile := none, moving := false }
    else { s with projectile := none, moving := false }

lemma bestStep_fst (x y : ℚ) (acc : Pos × Option ℚ) (rc : Pos) :
    (bestStep x y acc rc).1 = rc ∨ (bestStep x y acc rc).1 = acc.1 := by
  unfold bestStep
  rcases acc with ⟨bp, bd⟩
  cases bd with
  | none => exact Or.inl rfl
  | some d =>
    dsimp only
    split
    · exact Or.inl rfl
    · exact Or.inr rfl

lemma foldBest_inBounds (x y : ℚ) :
    ∀ (l : List Pos) (acc : Pos × Option ℚ), inBounds acc.1 → (∀ q ∈ l, inBounds q) →
      inBounds (l.foldl (bestStep x y) acc).1 := by
  intro l
  induction l with
  | nil => intro acc h _; simpa using h
  | cons a t ih =>
    intro acc h hl
    rw [List.foldl_cons]
    apply ih
    · rcases bestStep_fst x y acc a with he | he <;> rw [he]
      · exact hl a (List.mem_cons_self _ _)
      · exact h
    · intro q hq
      exact hl q (List.mem_cons_of_mem _ hq)

lemma cellsRowMajor_inBounds : ∀ q ∈ cellsRowMajor, inBounds q := by decide

/-- `posToGrid` is total and always lands in bounds (the scan only ever
keeps cells of the table). -/
lemma posToGrid_inBounds (x y : ℚ) : inBounds (posToGrid x y) := by
  unfold posToGrid
  exact foldBest_inBounds x y cellsRowMajor (((0 : ℤ), (0 : ℤ)), none) (by decide)
    cellsRowMajor_inBounds

lemma removeFloating_pointwise (g : Grid) (r c : ℤ) :
    (removeFloating g).1 r c = g r c ∨ (removeFloating g).1 r c = none := by
  simp only [removeFloating]
  split
  · exact Or.inr rfl
  · exact Or.inl rfl

lemma removeFloating_none {g : Grid} {r c : ℤ} (h : g r c = none) :
    (removeFloating g).1 r c = none := by
  simp only [removeFloating]
  split
  · rfl
  · exact h

lemma clearCells_pointwise (g : Grid) (m : Finset Pos) (r c : ℤ) :
    clearCells g m r c = g r c ∨ clearCells g m r c = none := by
  unfold clearCells
  split
  · exact Or.inr rfl
  · exact Or.inl rfl

lemma updateGrid_ne {g : Grid} {p : Pos} {v : Option Color} {r c : ℤ}
    (h : ¬(r = p.1 ∧ c = p.2)) : updateGrid g p v r c = g r c := by
  unfold updateGrid
  exact if_neg h

/-- C5: when the projectile is live, landing never overwrites an occupied
cell — a snap onto an occupied cell discards the shot with the grid and
score untouched, every occupied cell either keeps its colour or is cleared,
and the live-projectile state is cleared in every branch. -/
theorem C5_stopProjectileAndSnap_no_overwrite (s : SnapState) (p : Proj)
    (hp : s.projectile = some p) :
    ((s.grid (posToGrid p.x p.y).1 (posToGrid p.x p.y).2).isSome →
      (stopProjectileAndSnap s).grid = s.grid ∧
      (stopProjectileAndSnap s).score = s.score) ∧
    (stopProjectileAndSnap s).projectile = none ∧
    (stopProjectileAndSnap s).moving = false ∧
    (∀ r c col, s.grid r c = some col →
      (stopProjectileAndSnap s).grid r c = some col ∨
      (stopProjectileAndSnap s).grid r c = none) := by
  obtain ⟨g, sc, proj, mv⟩ := s
  simp only at hp
  subst hp
  simp only [stopProjectileAndSnap]
  by_cases h1 : (posToGrid p.x p.y).1 < 0
  · rw [if_pos h1]
    exact ⟨fun _ => ⟨rfl, rfl⟩, rfl, rfl, fun r c col h => Or.inl h⟩
  · rw [if_neg h1]
    by_cases h2 : g (posToGrid p.x p.y).1 (posToGrid p.x p.y).2 = none
    · rw [if_pos h2]
      refine ⟨fun hocc => absurd h2 (by rw [Option.isSome_iff_ne_none] at hocc; exact hocc), ?_⟩
      by_cases h3 : 3 ≤ (floodFill (updateGrid g (posToGrid p.x p.y) (some p.color))
          (posToGrid p.x p.y).1 (posToGrid p.x p.y).2 p.color).card
      · rw [if_pos h3]
        refine ⟨rfl, rfl, ?_⟩
        intro r c col hcol
        dsimp only
        have hne : ¬(r = (posToGrid p.x p.y).1 ∧ c = (posToGrid p.x p.y).2) := by
          rintro ⟨rfl, rfl⟩
          rw [h2] at hcol
          exact Option.noConfusion hcol
        rcases removeFloating_pointwise
            (clearCells (updateGrid g (posToGrid p.x p.y) (some p.color)) _) r c with
          hrf | hrf
        · rw [hrf]
          rcases clearCells_pointwise (updateGrid g (posToGrid p.x p.y) (some p.color)) _ r c
            with hcc | hcc
          · rw [hcc, updateGrid_ne hne]
            exact Or.inl hcol
          · exact Or.inr hcc
        · exact Or.inr hrf
      · rw [if_neg h3]
        refine ⟨rfl, rfl, ?_⟩
        intro r c col hcol
        dsimp only
        have hne : ¬(r = (posToGrid p.x p.y).1 ∧ c = (posToGrid p.x p.y).2) := by
          rintro ⟨rfl, rfl⟩
          rw [h2] at hcol
          exact Option.noConfusion hcol
        rw [updateGrid_ne hne]
        exact Or.inl hcol
    · rw [if_neg h2]
      exact ⟨fun _ => ⟨rfl, rfl⟩, rfl, rfl, fun r c col h => Or.inl h⟩

/-- The grid used to witness C5: cell (0, 0) is occupied and the projectile
sits exactly on its centre, so the snap cell is occupied. -/
def C5state : SnapState :=
  { grid := fun r c => if r = 0 ∧ c = 0 then some "#ef4444" else none,
    score := 0, projectile := some ⟨9, 9, "#10b981"⟩, moving := true }

/-- C5 witness: the concrete occupied-snap shot is discarded: grid and score
untouched, projectile and moving flag cleared. -/
theorem C5_stopProjectileAndSnap_witness :
    (C5state.grid (posToGrid (9 : ℚ) (9 : ℚ)).1 (posToGrid (9 : ℚ) (9 : ℚ)).2).isSome = true ∧
    (stopProjectileAndSnap C5state).grid = C5state.grid ∧
    (stopProjectileAndSnap C5state).score = C5state.score ∧
    (stopProjectileAndSnap C5state).projectile = none ∧
    (stopProjectileAndSnap C5state).moving = false :=
  have h := C5_stopProjectileAndSnap_no_overwrite C5state ⟨9, 9, "#10b981"⟩ rfl
  have hocc : (C5state.grid (posToGrid (9 : ℚ) (9 : ℚ)).1
      (posToGrid (9 : ℚ) (9 : ℚ)).2).isSome = true :=
    of_decide_eq_true (by with_unfolding_all rfl)
  ⟨hocc, (h.1 hocc).1, (h.1 hocc).2, h.2.1, h.2.2.1⟩

/-- C6: after a placement on an empty snap cell, the matched cluster pops
exactly when its size is at least 3 — popping clears every cluster cell,
awards 10 points per cell and then runs floating removal on the post-pop
grid at 5 points per floating cell; a smaller cluster leaves the grid as the
mere placement and the score unchanged (no floating removal). -/
theorem C6_stopProjectileAndSnap_match_scoring (s : SnapState) (p : Proj)
    (hp : s.projectile = some p)
    (hempty : s.grid (posToGrid p.x p.y).1 (posToGrid p.x p.y).2 = none) :
    (3 ≤ (floodFill (updateGrid s.grid (posToGrid p.x p.y) (some p.color))
        (posToGrid p.x p.y).1 (posToGrid p.x p.y).2 p.color).card →
      (∀ q ∈ floodFill (updateGrid s.grid (posToGrid p.x p.y) (some p.color))
          (posToGrid p.x p.y).1 (posToGrid p.x p.y).2 p.color,
        (stopProjectileAndSnap s).grid q.1 q.2 = none) ∧
      (stopProjectileAndSnap s).grid
        = (removeFloating (clearCells (updateGrid s.grid (posToGrid p.x p.y) (some p.color))
            (floodFill (updateGrid s.grid (posToGrid p.x p.y) (some p.color))
              (posToGrid p.x p.y).1 (posToGrid p.x p.y).2 p.color))).1 ∧
      (stopProjectileAndSnap s).score
        = s.score + (floodFill (updateGrid s.grid (posToGrid p.x p.y) (some p.color))
            (posToGrid p.x p.y).1 (posToGrid p.x p.y).2 p.color).card * 10
          + (removeFloating (clearCells (updateGrid s.grid (posToGrid p.x p.y) (some p.color))
              (floodFill (updateGrid s.grid (posToGrid p.x p.y) (some p.color))
                (posToGrid p.x p.y).1 (posToGrid p.x p.y).2 p.color))).2) ∧
    ((floodFill (updateGrid s.grid (posToGrid p.x p.y) (some p.color))
        (posToGrid p.x p.y).1 (posToGrid p.x p.y).2 p.color).card < 3 →
      (stopProjectileAndSnap s).grid
        = updateGrid s.grid (posToGrid p.x p.y) (some p.color) ∧
      (stopProjectileAndSnap s).score = s.score) := by
  obtain ⟨g, sc, proj, mv⟩ := s
  simp only at hp hempty
  subst hp
  simp only [stopProjectileAndSnap]
  have h1 : ¬((posToGrid p.x p.y).1 < 0) := not_lt.2 (posToGrid_inBounds p.x p.y).1
  rw [if_neg h1, if_pos hempty]
  constructor
  · intro h3
    rw [if_pos h3]
    refine ⟨?_, rfl, rfl⟩
    intro q hq
    have hcleared : clearCells (updateGrid g (posToGrid p.x p.y) (some p.color))
        (floodFill (updateGrid g (posToGrid p.x p.y) (some p.color))
          (posToGrid p.x p.y).1 (posToGrid p.x p.y).2 p.color) q.1 q.2 = none := by
      unfold clearCells
      rw [if_pos hq]
    exact removeFloating_none hcleared
  · intro h3
    rw [if_neg (Nat.not_le.2 h3)]
    exact ⟨rfl, rfl⟩

/-- The state used to witness C6: two red cells next to the empty landing
cell (0, 0); a red shot lands there and completes a cluster of three. -/
def C6state : SnapState :=
  { grid := fun r c => if r = 0 ∧ (c = 1 ∨ c = 2) then some "#ef4444" else none,
    score := 0, projectile := some ⟨9, 9, "#ef4444"⟩, moving := true }

/-- C6 witness: the concrete landing pops a cluster of three for 30 points
(no floating cells remain), and the popped cells are cleared. -/
theorem C6_stopProjectileAndSnap_witness :
    C6state.grid (posToGrid (9 : ℚ) (9 : ℚ)).1 (posToGrid (9 : ℚ) (9 : ℚ)).2 = none ∧
    3 ≤ (floodFill (updateGrid C6state.grid (posToGrid (9 : ℚ) (9 : ℚ)) (some "#ef4444"))
        (posToGrid (9 : ℚ) (9 : ℚ)).1 (posToGrid (9 : ℚ) (9 : ℚ)).2 "#ef4444").card ∧
    (stopProjectileAndSnap C6state).score
      = C6state.score
        + (floodFill (updateGrid C6state.grid (posToGrid (9 : ℚ) (9 : ℚ)) (some "#ef4444"))
          (posToGrid (9 : ℚ) (9 : ℚ)).1 (posToGrid (9 : ℚ) (9 : ℚ)).2 "#ef4444").card * 10
        + (removeFloating (clearCells
            (updateGrid C6state.grid (posToGrid (9 : ℚ) (9 : ℚ)) (some "#ef4444"))
            (floodFill (updateGrid C6state.grid (posToGrid (9 : ℚ) (9 : ℚ)) (some "#ef4444"))
              (posToGrid (9 : ℚ) (9 : ℚ)).1 (posToGrid (9 : ℚ) (9 : ℚ)).2 "#ef4444"))).2 :=
  have hempty : C6state.grid (posToGrid (9 : ℚ) (9 : ℚ)).1 (posToGrid (9 : ℚ) (9 : ℚ)).2
      = none := of_decide_eq_true (by with_unfolding_all rfl)
  have h := C6_stopProjectileAndSnap_match_scoring C6state ⟨9, 9, "#ef4444"⟩ rfl hempty
  have h3 : 3 ≤ (floodFill (updateGrid C6state.grid (posToGrid (9 : ℚ) (9 : ℚ))
      (some "#ef4444")) (posToGrid (9 : ℚ) (9 : ℚ)).1 (posToGrid (9 : ℚ) (9 : ℚ)).2
      "#ef4444").card :=
    of_decide_eq_true (by with_unfolding_all rfl)
  ⟨hempty, h3, (h.1 h3).2.2⟩

/-! ### Row-shift protocol

`startGridShift` (src/index.js:81-110) is two-phase: it records the
animation state and locks firing, and schedules the single grid mutation at
the end of the configured duration (the `setTimeout(duration)` body).
Pending scheduled mutations are modelled explicitly as a `(fire time,
direction)` list, and the timeout body firing is `runShiftTimeout`. The
inner 16 ms unlock timeout only resets `active`/`animLock` and touches no
grid state. -/

/-- animRef.current (src/index.js:38). -/
structure AnimState where
  active : Bool
  start : ℚ
  duration : ℚ
  dir : ℤ

/-- The state the shift protocol touches: the grid, the animation record,
the firing lock, and the scheduled timeout(s). -/
structure ShiftSession where
  grid : Grid
  anim : AnimState
  animLock : Bool
  pending : List (ℚ × ℤ)

/-- The deferred data mutation (src/index.js:90-103): direction `-1` moves
every row's contents one index toward row 0, discarding row 0 and inserting
an empty row at the far end; any other direction (the JS `else` branch)
mirrors this. The sequential row copies read only rows not yet overwritten,
so the loop is this pointwise function. -/
def shiftGridData (dir : ℤ) (g : Grid) : Grid :=
  if dir = -1 then
    fun r c => if 0 ≤ r ∧ r < (rows : ℤ) - 1 then g (r + 1) c
      else if r = (rows : ℤ) - 1 then none else g r c
  else
    fun r c => if 1 ≤ r ∧ r < (rows : ℤ) then g (r - 1) c
      else if r = 0 then none else g r c

/-- startGridShift (src/index.js:81-110): a no-op while a shift is active;
otherwise records the animation, locks firing, and schedules the one grid
mutation for `now + duration`. -/
def startGridShift (now : ℚ) (direction : ℤ) (duration : ℚ) (s : ShiftSession) :
    ShiftSession :=
  if s.anim.active then s
  else
    { s with
      anim := { active := true, start := now, duration := duration, dir := direction },
      animLock := true,
      pending := s.pending ++ [(now + duration, direction)] }

/-- The scheduled timeout body firing: the single grid mutation of a shift. -/
def runShiftTimeout (direction : ℤ) (s : ShiftSession) : ShiftSession :=
  { s with grid := shiftGridData direction s.grid }

/-- C7: starting a shift while one is active is a complete no-op, so two
immediate calls schedule exactly one grid mutation, at the end of the first
call's configured duration, and the call itself does not touch the grid;
when the scheduled mutation fires, direction `-1` shifts every row's
contents one index toward row 0, discarding row 0 and inserting an empty
far row, and direction `1` mirrors this. -/
theorem C7_startGridShift_exactly_one_mutation (s : ShiftSession)
    (now now2 dur dur2 : ℚ) (d d2 : ℤ) (h : s.anim.active = false) :
    (startGridShift now2 d2 dur2 (startGridShift now d dur s) = startGridShift now d dur s) ∧
    (startGridShift now d dur s).grid = s.grid ∧
    (startGridShift now d dur s).pending = s.pending ++ [(now + dur, d)] ∧
    (∀ t : ShiftSession, ∀ r c : ℤ,
      (0 ≤ r → r < (rows : ℤ) - 1 → (runShiftTimeout (-1) t).grid r c = t.grid (r + 1) c) ∧
      ((runShiftTimeout (-1) t).grid ((rows : ℤ) - 1) c = none) ∧
      (1 ≤ r → r < (rows : ℤ) → (runShiftTimeout 1 t).grid r c = t.grid (r - 1) c) ∧
      ((runShiftTimeout 1 t).grid 0 c = none)) := by
  have hno : ¬(s.anim.active = true) := by rw [h]; exact Bool.false_ne_true
  have h1 : startGridShift now d dur s
      = { s with
          anim := { active := true, start := now, duration := dur, dir := d },
          animLock := true,
          pending := s.pending ++ [(now + dur, d)] } := by
    unfold startGridShift
    rw [if_neg hno]
  refine ⟨?_, by rw [h1], by rw [h1], ?_⟩
  · rw [h1]
    unfold startGridShift
    rw [if_pos rfl]
  · intro t r c
    refine ⟨?_, ?_, ?_, ?_⟩
    · intro h0 hr
      show shiftGridData (-1) t.grid r c = t.grid (r + 1) c
      unfold shiftGridData
      rw [if_pos rfl, if_pos ⟨h0, hr⟩]
    · show shiftGridData (-1) t.grid ((rows : ℤ) - 1) c = none
      unfold shiftGridData
      rw [if_pos rfl, if_neg (by norm_num [rows]), if_pos rfl]
    · intro h0 hr
      show shiftGridData 1 t.grid r c = t.grid (r - 1) c
      unfold shiftGridData
      rw [if_neg (by norm_num), if_pos ⟨h0, hr⟩]
    · show shiftGridData 1 t.grid 0 c = none
      unfold shiftGridData
      rw [if_neg (by norm_num), if_neg (by norm_num [rows]), if_pos rfl]

/-- An idle session used to witness C7 concretely. -/
def C7session : ShiftSession :=
  { grid := fun _ _ => none, anim := { active := false, start := 0, duration := 300, dir := 0 },
    animLock := false, pending := [] }

/-- C7 witness: from the concrete idle session, the second of two immediate
`startGridShift(1, 300)` calls is a no-op and exactly one mutation is
scheduled, at time 0 + 300. -/
theorem C7_startGridShift_witness :
    C7session.anim.active = false ∧
    startGridShift 5 1 300 (startGridShift 0 1 300 C7session) = startGridShift 0 1 300 C7session ∧
    (startGridShift 0 1 300 C7session).pending = [((0 : ℚ) + 300, 1)] :=
  have h := C7_startGridShift_exactly_one_mutation C7session 0 5 300 300 1 1 rfl
  ⟨rfl, h.1, h.2.2.1⟩

/-! ### Trajectory predictor -/

/-- The shooter/projectile radius `cellSize / 2 - 1` (src/index.js:24). -/
def shooterRadius : ℚ := cellSize / 2 - 1

/-- The predictor's speed constant (src/index.js:140). -/
def trajSpeed : ℚ := 1

/-- segmentIntersectsCircle (src/index.js:117-128); `Math.hypot ... <= r` is
embedded as the squared comparison, equivalent since the call site's radius
is nonnegative. -/
def segmentIntersectsCircle (sx sy ex ey cx cy r : ℚ) : Bool :=
  let dx := ex - sx
  let dy := ey - sy
  let l2 := dx * dx + dy * dy
  if l2 = 0 then decide ((cx - sx) * (cx - sx) + (cy - sy) * (cy - sy) ≤ r * r)
  else
    let t := max 0 (min 1 (((cx - sx) * dx + (cy - sy) * dy) / l2))
    let px := sx + t * dx
    let py := sy + t * dy
    decide ((px - cx) * (px - cx) + (py - cy) * (py - cy) ≤ r * r)

/-- The clamped closest-point parameter computeTrajectory recomputes for the
reported collision (src/index.js:166-170), with the JS `|| 1` guard. -/
def collisionParam (x y ex ey cx cy : ℚ) : ℚ :=
  let dx := ex - x
  let dy := ey - y
  let l2 := dx * dx + dy * dy
  let l2g := if l2 = 0 then 1 else l2
  max 0 (min 1 (((cx - x) * dx + (cy - y) * dy) / l2g))

/-- The collision point computeTrajectory reports (src/index.js:171-173). -/
def collisionPoint (x y ex ey cx cy : ℚ) : ℚ × ℚ :=
  let t := collisionParam x y ex ey cx cy
  (x + (ex - x) * t, y + (ey - y) * t)

/-- A cell's centre, `gridToPos` plus half a cell (src/index.js:162-163). -/
def cellCenter (p : Pos) : ℚ × ℚ :=
  ((gridToPos p.1 p.2).1 + cellSize / 2, (gridToPos p.1 p.2).2 + cellSize / 2)

/-- Whether the candidate segment hits an occupied cell's circle with the
effective radius `cellR + projR - 0.5` (src/index.js:156-164). -/
def collisionPred (g : Grid) (x y ex ey : ℚ) (p : Pos) : Bool :=
  (g p.1 p.2).isSome &&
    segmentIntersectsCircle x y ex ey (cellCenter p).1 (cellCenter p).2
      (cellSize / 2 - 1 + shooterRadius - 1 / 2)

/-- The collision scan (src/index.js:157-178): the nested row-major loops
with `break` report the first cell whose circle the segment hits. -/
def findCollision (g : Grid) (x y ex ey : ℚ) : Option Pos :=
  cellsRowMajor.find? (collisionPred g x y ex ey)

/-- Time to the side wall, `Infinity` as `none` (src/index.js:143-145). -/
def wallTX (width x vx : ℚ) : Option ℚ :=
  if 0 < vx then some ((width - (x + shooterRadius)) / (vx * trajSpeed))
  else if vx < 0 then some ((shooterRadius - x) / (vx * trajSpeed))
  else none

/-- Time to the ceiling, `Infinity` as `none` (src/index.js:146-147). -/
def wallTY (y vy : ℚ) : Option ℚ :=
  if vy < 0 then some ((shooterRadius - y) / (vy * trajSpeed)) else none

/-- `Math.min` with `Infinity` as `none` (src/index.js:148). -/
def optMin : Option ℚ → Option ℚ → Option ℚ
  | none, none => none
  | none, some b => some b
  | some a, none => some a
  | some a, some b => some (min a b)

/-- `ty <= tx` with `Infinity` as `none` (src/index.js:186). -/
def optLE : Option ℚ → Option ℚ → Bool
  | none, none => true
  | none, some _ => false
  | some _, none => true
  | some a, some b => decide (a ≤ b)

/-- One predicted path segment (src/index.js:181, 185). -/
structure Seg where
  x1 : ℚ
  y1 : ℚ
  x2 : ℚ
  y2 : ℚ
deriving DecidableEq

/-- computeTrajectory's result: the polyline plus the collision report;
`hit = false` leaves no point/cell (src/index.js:182, 186, 191). -/
structure TrajResult where
  segments : List Seg
  hit : Bool
  point : Option (ℚ × ℚ)
  cell : Option Pos
deriving DecidableEq

/-- The bounce loop of computeTrajectory (src/index.js:142-190); the fuel is
the number of remaining iterations, `maxBounces + 1` at entry. A collision
or a ceiling event returns immediately; a wall event reflects the
horizontal velocity and continues. -/
def trajAux (g : Grid) (width : ℚ) : ℕ → ℚ → ℚ → ℚ → ℚ → TrajResult
  | 0, _, _, _, _ => ⟨[], false, none, none⟩
  | fuel + 1, x, y, vx, vy =>
    let tx := wallTX width x vx
    let ty := wallTY y vy
    match optMin tx ty with
    | none => ⟨[], false, none, none⟩
    | some te =>
      let endX := x + vx * trajSpeed * te
      let endY := y + vy * trajSpeed * te
      match findCollision g x y endX endY with
      | some rc =>
        let pt := collisionPoint x y endX endY (cellCenter rc).1 (cellCenter rc).2
        ⟨[⟨x, y, pt.1, pt.2⟩], true, some pt, some rc⟩
      | none =>
        if optLE ty tx then ⟨[⟨x, y, endX, endY⟩], false, none, none⟩
        else
          let rest := trajAux g width fuel endX endY (-vx) vy
          ⟨⟨x, y, endX, endY⟩ :: rest.segments, rest.hit, rest.point, rest.cell⟩

/-- computeTrajectory (src/index.js:130-192), taking the direction as the
unit-vector components the source computes from the angle once at entry. -/
def computeTrajectory (g : Grid) (width x y vx vy : ℚ) (maxBounces : ℕ) : TrajResult :=
  trajAux g width (maxBounces + 1) x y vx vy

/-- The everywhere-empty grid. -/
def emptyGrid : Grid := fun _ _ => none

/-- A column of two occupied cells, (0,0) and (2,0), used against C3. -/
def C3grid : Grid := fun r c => if (r = 0 ∨ r = 2) ∧ c = 0 then some "#f59e0b" else none

/-- C3 counterexample: shooting straight up the first column from (9, 100),
the candidate segment runs to the ceiling and crosses both occupied
circles. The cell hit earliest along the segment is (2, 0) — its clamped
segment parameter is strictly smaller — but the predictor reports (0, 0),
the first intersecting cell in row-major scan order. -/
theorem C3_earliest_collision_counterexample :
    (computeTrajectory C3grid 160 9 100 0 (-1) 4).cell = some ((0 : ℤ), (0 : ℤ)) ∧
    collisionPred C3grid 9 100 9 8 ((2 : ℤ), (0 : ℤ)) = true ∧
    collisionParam 9 100 9 8 (cellCenter (2, 0)).1 (cellCenter (2, 0)).2
      < collisionParam 9 100 9 8 (cellCenter (0, 0)).1 (cellCenter (0, 0)).2 :=
  of_decide_eq_true (by with_unfolding_all rfl)

lemma find?_first {α : Type} (p : α → Bool) :
    ∀ (l : List α) (a : α), l.find? p = some a →
      p a = true ∧ ∃ l1 l2, l = l1 ++ a :: l2 ∧ ∀ x ∈ l1, p x = false := by
  intro l
  induction l with
  | nil => intro a h; cases h
  | cons b t ih =>
    intro a h
    by_cases hb : p b = true
    · rw [List.find?_cons_of_pos _ hb] at h
      obtain rfl := Option.some_inj.1 h
      exact ⟨hb, [], t, rfl, fun x hx => absurd hx (List.not_mem_nil x)⟩
    · rw [List.find?_cons_of_neg _ hb] at h
      obtain ⟨hp, l1, l2, heq, hall⟩ := ih a h
      refine ⟨hp, b :: l1, l2, by rw [heq, List.cons_append], ?_⟩
      intro x hx
      rcases List.mem_cons.1 hx with rfl | hx
      · exact Bool.eq_false_iff.2 hb
      · exact hall x hx

/-- C3 (amended): the collision the predictor reports is the first
intersecting occupied cell in row-major scan order (rows ascending, then
columns), not necessarily the one earliest along the segment; the trace
terminates immediately at that collision with a single final segment to the
reported point. -/
theorem C3_first_scan_order_collision (g : Grid) (x y ex ey : ℚ) (rc : Pos)
    (h : findCollision g x y ex ey = some rc) :
    collisionPred g x y ex ey rc = true ∧
    (∃ l1 l2, cellsRowMajor = l1 ++ rc :: l2 ∧
      ∀ q ∈ l1, collisionPred g x y ex ey q = false) ∧
    (∀ width vx vy : ℚ, ∀ fuel : ℕ, ∀ te : ℚ,
      optMin (wallTX width x vx) (wallTY y vy) = some te →
      ex = x + vx * trajSpeed * te → ey = y + vy * trajSpeed * te →
      trajAux g width (fuel + 1) x y vx vy
        = ⟨[⟨x, y, (collisionPoint x y ex ey (cellCenter rc).1 (cellCenter rc).2).1,
              (collisionPoint x y ex ey (cellCenter rc).1 (cellCenter rc).2).2⟩], true,
            some (collisionPoint x y ex ey (cellCenter rc).1 (cellCenter rc).2),
            some rc⟩) := by
  obtain ⟨hp, l1, l2, heq, hall⟩ := find?_first (collisionPred g x y ex ey) cellsRowMajor rc h
  refine ⟨hp, ⟨l1, l2, heq, hall⟩, ?_⟩
  intro width vx vy fuel te hte hex hey
  subst hex
  subst hey
  simp only [trajAux, hte, h]

/-- C3 witness: on the concrete two-cell column, the scan returns (0, 0) and
that cell's circle does intersect the candidate segment. -/
theorem C3_first_scan_order_collision_witness :
    findCollision C3grid 9 100 9 8 = some ((0 : ℤ), (0 : ℤ)) ∧
    collisionPred C3grid 9 100 9 8 ((0 : ℤ), (0 : ℤ)) = true :=
  have h : findCollision C3grid 9 100 9 8 = some ((0 : ℤ), (0 : ℤ)) :=
    of_decide_eq_true (by with_unfolding_all rfl)
  ⟨h, (C3_first_scan_order_collision C3grid 9 100 9 8 _ h).1⟩

/-! ### C8: wall bounds and one reflection per wall event -/

lemma shooterRadius_nonneg : (0 : ℚ) ≤ shooterRadius := by
  norm_num [shooterRadius, cellSize]

lemma wallTX_pos_eq {width x vx : ℚ} (h : 0 < vx) :
    wallTX width x vx = some ((width - (x + shooterRadius)) / (vx * trajSpeed)) := by
  unfold wallTX
  rw [if_pos h]

lemma wallTX_neg_eq {width x vx : ℚ} (h : vx < 0) :
    wallTX width x vx = some ((shooterRadius - x) / (vx * trajSpeed)) := by
  unfold wallTX
  rw [if_neg (not_lt.2 h.le), if_pos h]

lemma wallTX_zero {width x : ℚ} : wallTX width x 0 = none := by
  unfold wallTX
  rw [if_neg (lt_irrefl 0), if_neg (lt_irrefl 0)]

lemma wallTY_neg_eq {y vy : ℚ} (h : vy < 0) :
    wallTY y vy = some ((shooterRadius - y) / (vy * trajSpeed)) := by
  unfold wallTY
  rw [if_pos h]

lemma wallTY_nonneg_eq {y vy : ℚ} (h : 0 ≤ vy) : wallTY y vy = none := by
  unfold wallTY
  rw [if_neg (not_lt.2 h)]

lemma endX_of_le_pos {width x vx te : ℚ} (hvx : 0 < vx) (hte0 : 0 ≤ te)
    (hle : te ≤ (width - (x + shooterRadius)) / (vx * trajSpeed))
    (hx1 : shooterRadius ≤ x) :
    shooterRadius ≤ x + vx * trajSpeed * te ∧
    x + vx * trajSpeed * te ≤ width - shooterRadius := by
  simp only [trajSpeed, mul_one] at hle ⊢
  have hca : vx * ((width - (x + shooterRadius)) / vx) = width - (x + shooterRadius) := by
    field_simp
  have hmul := mul_le_mul_of_nonneg_left hle hvx.le
  rw [hca] at hmul
  have hnn : 0 ≤ vx * te := mul_nonneg hvx.le hte0
  constructor <;> linarith

lemma endX_of_le_neg {width x vx te : ℚ} (hvx : vx < 0) (hte0 : 0 ≤ te)
    (hle : te ≤ (shooterRadius - x) / (vx * trajSpeed))
    (hx2 : x ≤ width - shooterRadius) :
    shooterRadius ≤ x + vx * trajSpeed * te ∧
    x + vx * trajSpeed * te ≤ width - shooterRadius := by
  simp only [trajSpeed, mul_one] at hle ⊢
  have hca : vx * ((shooterRadius - x) / vx) = shooterRadius - x := by
    rw [mul_comm, div_mul_cancel₀ _ (ne_of_lt hvx)]
  have hmul := mul_le_mul_of_nonpos_left hle hvx.le
  rw [hca] at hmul
  have hnp : vx * te ≤ 0 := mul_nonpos_of_nonpos_of_nonneg hvx.le hte0
  constructor <;> linarith

lemma endY_of_le {y vy te : ℚ} (hvy : vy < 0)
    (hle : te ≤ (shooterRadius - y) / (vy * trajSpeed)) :
    shooterRadius ≤ y + vy * trajSpeed * te := by
  simp only [trajSpeed, mul_one] at hle ⊢
  have hca : vy * ((shooterRadius - y) / vy) = shooterRadius - y := by
    rw [mul_comm, div_mul_cancel₀ _ (ne_of_lt hvy)]
  have hmul := mul_le_mul_of_nonpos_left hle hvy.le
  rw [hca] at hmul
  linarith

lemma endY_of_nonneg {y vy te : ℚ} (hvy : 0 ≤ vy) (hte0 : 0 ≤ te)
    (hy : shooterRadius ≤ y) :
    shooterRadius ≤ y + vy * trajSpeed * te := by
  simp only [trajSpeed, mul_one]
  have := mul_nonneg hvy hte0
  linarith

/-- The event time the loop commits to is nonnegative, and the candidate
segment end stays between the walls and at or below the ceiling line. -/
lemma step_bounds {width x y vx vy te : ℚ}
    (hx1 : shooterRadius ≤ x) (hx2 : x ≤ width - shooterRadius) (hy : shooterRadius ≤ y)
    (hte : optMin (wallTX width x vx) (wallTY y vy) = some te) :
    0 ≤ te ∧ shooterRadius ≤ x + vx * trajSpeed * te ∧
      x + vx * trajSpeed * te ≤ width - shooterRadius ∧
      shooterRadius ≤ y + vy * trajSpeed * te := by
  have htsp : (0 : ℚ) ≤ trajSpeed := by norm_num [trajSpeed]
  rcases lt_trichotomy vx 0 with hvx | hvx | hvx
  · have hta0 : 0 ≤ (shooterRadius - x) / (vx * trajSpeed) :=
      div_nonneg_iff.2 (Or.inr ⟨by linarith,
        by simp only [trajSpeed, mul_one]; linarith⟩)
    by_cases hvy : vy < 0
    · have htb0 : 0 ≤ (shooterRadius - y) / (vy * trajSpeed) :=
        div_nonneg_iff.2 (Or.inr ⟨by linarith,
          by simp only [trajSpeed, mul_one]; linarith⟩)
      rw [wallTX_neg_eq hvx, wallTY_neg_eq hvy] at hte
      simp only [optMin] at hte
      obtain rfl := Option.some_inj.1 hte
      have hte0 : 0 ≤ min ((shooterRadius - x) / (vx * trajSpeed))
          ((shooterRadius - y) / (vy * trajSpeed)) := le_min hta0 htb0
      obtain ⟨hA, hB⟩ := endX_of_le_neg hvx hte0 (min_le_left _ _) hx2
      exact ⟨hte0, hA, hB, endY_of_le hvy (min_le_right _ _)⟩
    · rw [wallTX_neg_eq hvx, wallTY_nonneg_eq (not_lt.1 hvy)] at hte
      simp only [optMin] at hte
      obtain rfl := Option.some_inj.1 hte
      obtain ⟨hA, hB⟩ := endX_of_le_neg hvx hta0 (le_refl _) hx2
      exact ⟨hta0, hA, hB, endY_of_nonneg (not_lt.1 hvy) hta0 hy⟩
  · subst hvx
    rw [wallTX_zero] at hte
    by_cases hvy : vy < 0
    · have htb0 : 0 ≤ (shooterRadius - y) / (vy * trajSpeed) :=
        div_nonneg_iff.2 (Or.inr ⟨by linarith,
          by simp only [trajSpeed, mul_one]; linarith⟩)
      rw [wallTY_neg_eq hvy] at hte
      simp only [optMin] at hte
      obtain rfl := Option.some_inj.1 hte
      refine ⟨htb0, ?_, ?_, endY_of_le hvy (le_refl _)⟩
      · simp only [zero_mul, add_zero]
        exact hx1
      · simp only [zero_mul, add_zero]
        exact hx2
    · rw [wallTY_nonneg_eq (not_lt.1 hvy)] at hte
      simp only [optMin] at hte
      exact absurd hte (by simp)
  · have hta0 : 0 ≤ (width - (x + shooterRadius)) / (vx * trajSpeed) :=
      div_nonneg (by linarith) (by simp only [trajSpeed, mul_one]; linarith)
    by_cases hvy : vy < 0
    · have htb0 : 0 ≤ (shooterRadius - y) / (vy * trajSpeed) :=
        div_nonneg_iff.2 (Or.inr ⟨by linarith,
          by simp only [trajSpeed, mul_one]; linarith⟩)
      rw [wallTX_pos_eq hvx, wallTY_neg_eq hvy] at hte
      simp only [optMin] at hte
      obtain rfl := Option.some_inj.1 hte
      have hte0 : 0 ≤ min ((width - (x + shooterRadius)) / (vx * trajSpeed))
          ((shooterRadius - y) / (vy * trajSpeed)) := le_min hta0 htb0
      obtain ⟨hA, hB⟩ := endX_of_le_pos hvx hte0 (min_le_left _ _) hx1
      exact ⟨hte0, hA, hB, endY_of_le hvy (min_le_right _ _)⟩
    · rw [wallTX_pos_eq hvx, wallTY_nonneg_eq (not_lt.1 hvy)] at hte
      simp only [optMin] at hte
      obtain rfl := Option.some_inj.1 hte
      obtain ⟨hA, hB⟩ := endX_of_le_pos hvx hta0 (le_refl _) hx1
      exact ⟨hta0, hA, hB, endY_of_nonneg (not_lt.1 hvy) hta0 hy⟩

lemma collisionParam_mem (x y ex ey cx cy : ℚ) :
    0 ≤ collisionParam x y ex ey cx cy ∧ collisionParam x y ex ey cx cy ≤ 1 := by
  unfold collisionParam
  refine ⟨le_max_left _ _, max_le (by norm_num) (min_le_left _ _)⟩

lemma between_of_param {lo hi a b t : ℚ} (h1 : lo ≤ a) (h2 : a ≤ hi) (h3 : lo ≤ b)
    (h4 : b ≤ hi) (ht0 : 0 ≤ t) (ht1 : t ≤ 1) :
    lo ≤ a + (b - a) * t ∧ a + (b - a) * t ≤ hi := by
  constructor
  · nlinarith [mul_nonneg (sub_nonneg.2 ht1) (sub_nonneg.2 h1),
      mul_nonneg ht0 (sub_nonneg.2 h3)]
  · nlinarith [mul_nonneg (sub_nonneg.2 ht1) (sub_nonneg.2 h2),
      mul_nonneg ht0 (sub_nonneg.2 h4)]

/-- Invariant of the bounce loop: starting between the walls and at or
below the ceiling line, every emitted segment keeps its x coordinates
between the walls, and segment `i` travels along `((-1)^i * vx, vy)` scaled
by a nonnegative time — the horizontal velocity is reflected exactly once
per wall continuation. -/
lemma trajAux_spec (g : Grid) (width : ℚ) :
    ∀ (fuel : ℕ) (x y vx vy : ℚ),
      shooterRadius ≤ x → x ≤ width - shooterRadius → shooterRadius ≤ y →
      ∀ (i : ℕ) (sg : Seg), (trajAux g width fuel x y vx vy).segments[i]? = some sg →
        (shooterRadius ≤ sg.x1 ∧ sg.x1 ≤ width - shooterRadius ∧
          shooterRadius ≤ sg.x2 ∧ sg.x2 ≤ width - shooterRadius) ∧
        ∃ t : ℚ, 0 ≤ t ∧ sg.x2 - sg.x1 = (-1) ^ i * vx * t ∧ sg.y2 - sg.y1 = vy * t := by
  intro fuel
  induction fuel with
  | zero =>
    intro x y vx vy _ _ _ i sg hsg
    simp [trajAux] at hsg
  | succ n ih =>
    intro x y vx vy hx1 hx2 hy i sg hsg
    rcases hte : optMin (wallTX width x vx) (wallTY y vy) with _ | te
    · simp [trajAux, hte] at hsg
    · obtain ⟨hte0, hA, hB, hC⟩ := step_bounds hx1 hx2 hy hte
      have htt : 0 ≤ trajSpeed * te := by
        simp only [trajSpeed, one_mul]
        exact hte0
      rcases hfc : findCollision g x y (x + vx * trajSpeed * te) (y + vy * trajSpeed * te)
        with _ | rc
      · rcases hl : optLE (wallTY y vy) (wallTX width x vx) with _ | _
        · -- wall event: reflect and continue
          simp only [trajAux, hte, hfc, hl, Bool.false_eq_true, if_false] at hsg
          cases i with
          | zero =>
            rw [List.getElem?_cons_zero] at hsg
            obtain rfl := Option.some_inj.1 hsg
            refine ⟨⟨hx1, hx2, hA, hB⟩, trajSpeed * te, htt, by ring, by ring⟩
          | succ j =>
            rw [List.getElem?_cons_succ] at hsg
            have h := ih (x + vx * trajSpeed * te) (y + vy * trajSpeed * te) (-vx) vy
              hA hB hC j sg hsg
            refine ⟨h.1, ?_⟩
            obtain ⟨t, ht0, hdx, hdy⟩ := h.2
            refine ⟨t, ht0, ?_, hdy⟩
            rw [hdx]
            ring
        · -- ceiling event: emit the final segment and stop
          simp only [trajAux, hte, hfc, hl, if_true] at hsg
          cases i with
          | zero =>
            rw [List.getElem?_cons_zero] at hsg
            obtain rfl := Option.some_inj.1 hsg
            refine ⟨⟨hx1, hx2, hA, hB⟩, trajSpeed * te, htt, by ring, by ring⟩
          | succ j =>
            rw [List.getElem?_cons_succ] at hsg
            simp at hsg
      · -- collision: emit the clamped point and stop
        simp only [trajAux, hte, hfc] at hsg
        cases i with
        | zero =>
          rw [List.getElem?_cons_zero] at hsg
          obtain rfl := Option.some_inj.1 hsg
          obtain ⟨hp0, hp1⟩ := collisionParam_mem x y (x + vx * trajSpeed * te)
            (y + vy * trajSpeed * te) (cellCenter rc).1 (cellCenter rc).2
          obtain ⟨hl1, hl2⟩ := between_of_param hx1 hx2 hA hB hp0 hp1
          refine ⟨⟨hx1, hx2, ?_, ?_⟩, ?_⟩
          · simpa [collisionPoint] using hl1
          · simpa [collisionPoint] using hl2
          · refine ⟨trajSpeed * te * collisionParam x y (x + vx * trajSpeed * te)
              (y + vy * trajSpeed * te) (cellCenter rc).1 (cellCenter rc).2,
              mul_nonneg htt hp0, ?_, ?_⟩
            · simp only [collisionPoint]
              ring
            · simp only [collisionPoint]
              ring
        | succ j =>
          rw [List.getElem?_cons_succ] at hsg
          simp at hsg

/-- C8 (amended): whenever the origin lies between the walls (at least a
radius from each) and at or below the ceiling line, every segment the
predictor returns has both endpoints' x coordinates inside the play width,
and segment `i` travels along `((-1)^i * vx, vy)` scaled by a nonnegative
time: the horizontal velocity sign is reflected exactly once per wall
event. -/
theorem C8_computeTrajectory_wall_bounds (g : Grid) (width x y vx vy : ℚ) (maxBounces : ℕ)
    (hx1 : shooterRadius ≤ x) (hx2 : x ≤ width - shooterRadius) (hy : shooterRadius ≤ y) :
    ∀ (i : ℕ) (sg : Seg),
      (computeTrajectory g width x y vx vy maxBounces).segments[i]? = some sg →
      (0 ≤ sg.x1 ∧ sg.x1 ≤ width ∧ 0 ≤ sg.x2 ∧ sg.x2 ≤ width) ∧
      ∃ t : ℚ, 0 ≤ t ∧ sg.x2 - sg.x1 = (-1) ^ i * vx * t ∧ sg.y2 - sg.y1 = vy * t := by
  intro i sg hsg
  have h := trajAux_spec g width (maxBounces + 1) x y vx vy hx1 hx2 hy i sg hsg
  have hR := shooterRadius_nonneg
  obtain ⟨⟨h1, h2, h3, h4⟩, hd⟩ := h
  exact ⟨⟨by linarith, by linarith, by linarith, by linarith⟩, hd⟩

/-- C8 counterexample (to the unrestricted claim): from an origin far right
of the play area, a straight-up shot's only segment keeps x = 300, outside
the width-160 play area — the bound fails for arbitrary origins. -/
theorem C8_computeTrajectory_counterexample :
    (computeTrajectory emptyGrid 160 300 100 0 (-1) 4).segments = [⟨300, 100, 300, 8⟩] ∧
    ¬(∀ sg ∈ (computeTrajectory emptyGrid 160 300 100 0 (-1) 4).segments,
        0 ≤ sg.x2 ∧ sg.x2 ≤ 160) :=
  of_decide_eq_true (by with_unfolding_all rfl)

/-- C8 witness: a concrete in-bounds origin shooting straight up; the single
returned segment obeys the bounds and the velocity law. -/
theorem C8_computeTrajectory_wall_bounds_witness :
    (computeTrajectory emptyGrid 160 80 100 0 (-1) 4).segments[0]?
      = some ⟨80, 100, 80, 8⟩ ∧
    ((0 ≤ (Seg.mk 80 100 80 8).x1 ∧ (Seg.mk 80 100 80 8).x1 ≤ 160 ∧
      0 ≤ (Seg.mk 80 100 80 8).x2 ∧ (Seg.mk 80 100 80 8).x2 ≤ 160) ∧
      ∃ t : ℚ, 0 ≤ t ∧
        (Seg.mk 80 100 80 8).x2 - (Seg.mk 80 100 80 8).x1 = (-1) ^ 0 * 0 * t ∧
        (Seg.mk 80 100 80 8).y2 - (Seg.mk 80 100 80 8).y1 = (-1) * t) :=
  have hsg : (computeTrajectory emptyGrid 160 80 100 0 (-1) 4).segments[0]?
      = some ⟨80, 100, 80, 8⟩ := of_decide_eq_true (by with_unfolding_all rfl)
  ⟨hsg, C8_computeTrajectory_wall_bounds emptyGrid 160 80 100 0 (-1) 4
    (by norm_num [shooterRadius, cellSize]) (by norm_num [shooterRadius, cellSize])
    (by norm_num [shooterRadius, cellSize]) 0 _ hsg⟩

/-! ### Firing -/

/-- randomColor (src/index.js:40-42), with the `Math.random()` sample
`u ∈ [0, 1)` as a parameter. -/
def randomColor (u : ℚ) (arr : List Color) : Color :=
  arr.getD (Int.floor (u * arr.length)).toNat ""

lemma randomColor_mem {u : ℚ} (h0 : 0 ≤ u) (h1 : u < 1) {arr : List Color}
    (hne : arr ≠ []) : randomColor u arr ∈ arr := by
  unfold randomColor
  have hlen : 0 < arr.length := List.length_pos.2 hne
  have hlen' : (0 : ℚ) < (arr.length : ℚ) := by exact_mod_cast hlen
  have hfl0 : 0 ≤ ⌊u * (arr.length : ℚ)⌋ :=
    Int.floor_nonneg.2 (mul_nonneg h0 hlen'.le)
  have hflt : ⌊u * (arr.length : ℚ)⌋ < (arr.length : ℤ) := by
    apply Int.floor_lt.2
    push_cast
    nlinarith
  have hnat : (⌊u * (arr.length : ℚ)⌋).toNat < arr.length := by omega
  rw [List.getD_eq_getElem _ _ hnat]
  exact List.getElem_mem hnat

/-- JS `Math.atan2(y, x)` as the argument of the complex number `x + y i`
(both have range `(-π, π]` with the same quadrant conventions). -/
noncomputable def atan2 (y x : ℝ) : ℝ := Complex.arg ⟨x, y⟩

/-- The projectile record fire creates (src/index.js:206). -/
structure FireProj where
  x : ℝ
  y : ℝ
  vx : ℝ
  vy : ℝ
  radius : ℝ
  color : Color
  alive : Bool

/-- The shooter state fire reads and writes (src/index.js:21-31); the
hudAnim and aim fields are rendering-only and not modelled. -/
structure FireShooter where
  x : ℝ
  y : ℝ
  radius : ℝ
  main : Color
  secondary : Color
  projectile : Option FireProj
  moving : Bool
  animLock : Bool

/-- fire (src/index.js:195-212): rejected while moving or shift-locked;
otherwise clamps a near-horizontal/downward aim to the minimum upward
`vy = -0.02` and recomputes the angle before computing the projectile
velocity, loads the secondary colour and draws a fresh secondary. -/
noncomputable def fire (u : ℚ) (angle : ℝ) (s : FireShooter) : FireShooter :=
  if s.moving || s.animLock then s
  else
    let minVy : ℝ := -(1 / 50)
    let vy := Real.sin angle
    let vx := Real.cos angle
    let angle2 := if vy > minVy then atan2 minVy vx else angle
    let speed : ℝ := 8
    { s with
      projectile := some ⟨s.x, s.y, Real.cos angle2 * speed, Real.sin angle2 * speed,
        s.radius, s.main, true⟩,
      moving := true,
      main := s.secondary,
      secondary := randomColor u colors }

/-- C10: an accepted shot's projectile carries the previous main colour, the
main slot reloads from the secondary, the new secondary is drawn from the
palette, and the moving flag is set. -/
theorem C10_fire_colors (u : ℚ) (angle : ℝ) (s : FireShooter)
    (hm : s.moving = false) (hl : s.animLock = false) (h0 : 0 ≤ u) (h1 : u < 1) :
    ∃ p : FireProj, (fire u angle s).projectile = some p ∧ p.color = s.main ∧
      (fire u angle s).main = s.secondary ∧
      (fire u angle s).secondary ∈ colors ∧
      (fire u angle s).moving = true := by
  unfold fire
  rw [if_neg (by rw [hm, hl]; simp)]
  exact ⟨_, rfl, rfl, rfl, randomColor_mem h0 h1 (by simp [colors]), rfl⟩

/-- An idle shooter used to witness the firing claims concretely. -/
def idleShooter : FireShooter :=
  { x := 80, y := 200, radius := 8, main := "#ef4444", secondary := "#f97316",
    projectile := none, moving := false, animLock := false }

/-- C10 witness: firing the concrete idle shooter at angle 0. -/
theorem C10_fire_colors_witness :
    idleShooter.moving = false ∧ idleShooter.animLock = false ∧
    ∃ p : FireProj, (fire (1 / 3) 0 idleShooter).projectile = some p ∧
      p.color = idleShooter.main ∧
      (fire (1 / 3) 0 idleShooter).main = idleShooter.secondary ∧
      (fire (1 / 3) 0 idleShooter).secondary ∈ colors ∧
      (fire (1 / 3) 0 idleShooter).moving = true :=
  ⟨rfl, rfl, C10_fire_colors (1 / 3) 0 idleShooter rfl rfl (by norm_num) (by norm_num)⟩

lemma complex_abs_mk_pos {x y : ℝ} (hy : y ≠ 0) : 0 < Complex.abs ⟨x, y⟩ :=
  Complex.abs.pos fun h => hy (by simpa using congrArg Complex.im h)

lemma complex_abs_mk_eq (x y : ℝ) :
    Complex.abs ⟨x, y⟩ = Real.sqrt (x ^ 2 + y ^ 2) := by
  rw [Complex.abs_apply, Complex.normSq_mk]
  ring_nf

/-- C9: with the shooter idle and unlocked, every fired projectile moves
strictly upward (`vy < 0`); and whenever the aim satisfies
`sin angle ≥ -0.02` (near-horizontal or downward), the velocity is computed
from the clamped, renormalised direction with pre-normalisation vertical
component `-0.02`. -/
theorem C9_fire_clamps_near_horizontal (u : ℚ) (angle : ℝ) (s : FireShooter)
    (hm : s.moving = false) (hl : s.animLock = false) :
    (∀ p : FireProj, (fire u angle s).projectile = some p → p.vy < 0) ∧
    (Real.sin angle ≥ -(1 / 50) →
      ∃ p : FireProj, (fire u angle s).projectile = some p ∧
        p.vy = 8 * (-(1 / 50)) / Real.sqrt (Real.cos angle ^ 2 + (1 / 50) ^ 2) ∧
        p.vx = 8 * Real.cos angle / Real.sqrt (Real.cos angle ^ 2 + (1 / 50) ^ 2) ∧
        p.vy < 0) := by
  have habs : Complex.abs ⟨Real.cos angle, -(1 / 50)⟩
      = Real.sqrt (Real.cos angle ^ 2 + (1 / 50) ^ 2) := by
    rw [complex_abs_mk_eq]
    norm_num
  have habs_pos : 0 < Complex.abs (⟨Real.cos angle, -(1 / 50)⟩ : ℂ) :=
    complex_abs_mk_pos (by norm_num)
  have hz : (⟨Real.cos angle, -(1 / 50)⟩ : ℂ) ≠ 0 := by
    intro h
    have := congrArg Complex.im h
    simp at this
  have hsin2 : Real.sin (atan2 (-(1 / 50)) (Real.cos angle))
      = -(1 / 50) / Complex.abs ⟨Real.cos angle, -(1 / 50)⟩ := by
    unfold atan2
    rw [Complex.sin_arg]
  have hcos2 : Real.cos (atan2 (-(1 / 50)) (Real.cos angle))
      = Real.cos angle / Complex.abs ⟨Real.cos angle, -(1 / 50)⟩ := by
    unfold atan2
    rw [Complex.cos_arg hz]
  unfold fire
  rw [if_neg (by rw [hm, hl]; simp)]
  dsimp only
  by_cases hclamp : Real.sin angle > -(1 / 50)
  · rw [if_pos hclamp]
    have hvy : Real.sin (atan2 (-(1 / 50)) (Real.cos angle)) * 8
        = 8 * (-(1 / 50)) / Real.sqrt (Real.cos angle ^ 2 + (1 / 50) ^ 2) := by
      rw [hsin2, habs]
      ring
    have hvyneg : Real.sin (atan2 (-(1 / 50)) (Real.cos angle)) * 8 < 0 := by
      rw [hsin2]
      have : -(1 / 50) / Complex.abs (⟨Real.cos angle, -(1 / 50)⟩ : ℂ) < 0 :=
        div_neg_of_neg_of_pos (by norm_num) habs_pos
      linarith
    constructor
    · intro p hp
      obtain rfl := Option.some_inj.1 hp
      exact hvyneg
    · intro _
      refine ⟨_, rfl, ?_, ?_, hvyneg⟩
      · exact hvy
      · rw [hcos2, habs]
        ring
  · have hle : Real.sin angle ≤ -(1 / 50) := not_lt.1 hclamp
    rw [if_neg hclamp]
    constructor
    · intro p hp
      obtain rfl := Option.some_inj.1 hp
      show Real.sin angle * 8 < 0
      nlinarith
    · intro hge
      have heq : Real.sin angle = -(1 / 50) := le_antisymm hle hge
      have hone : Real.cos angle ^ 2 + (1 / 50) ^ 2 = 1 := by
        have h2 : ((1 : ℝ) / 50) ^ 2 = Real.sin angle ^ 2 := by
          rw [heq]
          ring
        rw [h2, add_comm]
        exact Real.sin_sq_add_cos_sq angle
      refine ⟨_, rfl, ?_, ?_, ?_⟩
      · show Real.sin angle * 8 = _
        rw [hone, Real.sqrt_one, heq]
        ring
      · show Real.cos angle * 8 = _
        rw [hone, Real.sqrt_one]
        ring
      · show Real.sin angle * 8 < 0
        nlinarith

/-- C9 witness: the idle shooter fired horizontally (angle 0, `sin 0 = 0 ≥
-0.02`): the shot is accepted and the projectile still moves strictly
upward. -/
theorem C9_fire_clamps_witness :
    idleShooter.moving = false ∧ idleShooter.animLock = false ∧
    Real.sin 0 ≥ -(1 / 50) ∧
    (∀ p : FireProj, (fire (1 / 3) 0 idleShooter).projectile = some p → p.vy < 0) :=
  ⟨rfl, rfl, by rw [Real.sin_zero]; norm_num,
    (C9_fire_clamps_near_horizontal (1 / 3) 0 idleShooter rfl rfl).1⟩

end BS
